import Mathlib

/-!
Shallow embedding of the quiz runner in `src/main.py` (UGMtester).

The Python program keeps its session state in `st.session_state`; here that
state is an explicit `SessionState` record and each user action (submit,
next, previous, mode change, feedback toggle, reset) is a function on it.
The `answers` dict (question number to answer record) is modelled as an
association list with Python-dict lookup/update semantics; the `locked`
set as a list observed only through membership.
-/

namespace UGM

/-- A flattened question record as produced by `flatten_questions`:
the question dict of the JSON bank with its batch id `lote_id` copied in.
Option texts and the `correcta` field are `Option String`; `none` models a
missing (or, for `correcta`, non-string) field, which the Python code reads
through `dict.get` / an `isinstance(corr, str)` test. -/
structure Question where
  n : Int
  lote_id : Int
  pregunta : String
  respuesta_a : Option String
  respuesta_b : Option String
  respuesta_c : Option String
  correcta : Option String
deriving DecidableEq

/-- One value of the `answers` dict:
`{"attempts": int, "correct": bool, "selected": letter, "lote_id": int}`. -/
structure AnswerRecord where
  attempts : Nat
  correct : Bool
  selected : Option String
  lote_id : Int
deriving DecidableEq

/-- The `answers` dict, keyed by question number `n`. -/
abbrev Answers := List (Int × AnswerRecord)

/-- Dict lookup `answers.get(n)`: the entry for key `n`, if any. -/
def lookupAns : Answers → Int → Option AnswerRecord
  | [], _ => none
  | (m, r) :: rest, n => if m = n then some r else lookupAns rest n

/-- Dict update `answers[n] = r`: replace the entry for `n` in place,
or append a fresh one. -/
def setAns : Answers → Int → AnswerRecord → Answers
  | [], n, r => [(n, r)]
  | (m, s) :: rest, n, r =>
      if m = n then (n, r) :: rest else (m, s) :: setAns rest n r

/-- `a.get("correct", False)` applied to `answers.get(n, {})`. -/
def recCorrect : Option AnswerRecord → Bool
  | none => false
  | some r => r.correct

/-- `a.get("attempts", 0)` applied to `answers.get(n, {})`. -/
def recAttempts : Option AnswerRecord → Nat
  | none => 0
  | some r => r.attempts

/-- `locked.add(n)` on the locked set (membership is the only observation). -/
def addLocked (n : Int) (l : List Int) : List Int :=
  if l.contains n then l else n :: l

/-- The mutable session state (`st.session_state` in `_init_state`). -/
structure SessionState where
  mode : String
  show_correct_between : Bool
  current_index : Nat
  answers : Answers
  locked : List Int
  last_feedback : Option String
deriving DecidableEq

/-- The defaults installed by `_init_state`. -/
def init_state : SessionState :=
  { mode := "full"
    show_correct_between := false
    current_index := 0
    answers := []
    locked := []
    last_feedback := none }

/-- `get_questions_for_mode` (src/main.py lines 56-66): the bank for
`"full"`, the batch subsequence for `"lote1".."lote3"` (the code parses the
digit with `int(mode.replace("lote",""))`), the failed subsequence for
`"review"`, and `[]` for anything else. -/
def get_questions_for_mode (bank : List Question) (ans : Answers)
    (mode : String) : List Question :=
  if mode = "full" then bank
  else if mode = "lote1" ∨ mode = "lote2" ∨ mode = "lote3" then
    let target : Int := if mode = "lote1" then 1 else if mode = "lote2" then 2 else 3
    bank.filter (fun q => q.lote_id == target)
  else if mode = "review" then
    let failed_ids :=
      (ans.filter (fun p => decide (1 ≤ p.2.attempts) && !p.2.correct)).map Prod.fst
    bank.filter (fun q => failed_ids.contains q.n)
  else []

/-- Error taxonomy of the spec; the source never raises it. -/
inductive QuizError
  | invalidMode
deriving DecidableEq

/-- `get_questions_for_mode` at the exception level: the Python function
body contains no `raise`, so every call returns normally with its value. -/
def get_questions_for_mode_exc (bank : List Question) (ans : Answers)
    (mode : String) : Except QuizError (List Question) :=
  Except.ok (get_questions_for_mode bank ans mode)

/-- Python `str.strip()`: drop leading and trailing whitespace. -/
def pyStrip (s : String) : String :=
  ⟨((s.data.dropWhile Char.isWhitespace).reverse.dropWhile Char.isWhitespace).reverse⟩

/-- Python `str.upper()` (on the ASCII letters the quiz uses). -/
def pyUpper (s : String) : String := ⟨s.data.map Char.toUpper⟩

/-- Python `str.lower()` (on the ASCII letters the quiz uses). -/
def pyLower (s : String) : String := ⟨s.data.map Char.toLower⟩

/-- The loop body of `get_correct_letter`'s text fallback:
`if v and str(v).strip().lower() == corr.strip().lower()`. A missing option
or an empty-string option is falsy in Python, so it never matches. -/
def optTruthyMatch (corr : String) : Option String → Bool
  | none => false
  | some v => !(v == "") && (pyLower (pyStrip v) == pyLower (pyStrip corr))

/-- `get_correct_letter` (src/main.py lines 68-81). For a string `correcta`:
strip and uppercase, return it if it is a letter; otherwise scan options
A, B, C in order and return the key of the first option whose value is
truthy (non-empty) and whose stripped lowercased text equals the stripped
lowercased `correcta`; otherwise (including a missing or non-string
`correcta`) return `"A"`. -/
def get_correct_letter (q : Question) : String :=
  match q.correcta with
  | none => "A"
  | some corr =>
    let corr_up := pyUpper (pyStrip corr)
    if corr_up = "A" ∨ corr_up = "B" ∨ corr_up = "C" then corr_up
    else
      if optTruthyMatch corr q.respuesta_a then "A"
      else if optTruthyMatch corr q.respuesta_b then "B"
      else if optTruthyMatch corr q.respuesta_c then "C"
      else "A"

/-- Modelled from the spec: the text-comparison step of the §4.3 reference
algorithm, which compares an option text against `correcta`
case-insensitively after trimming, with no further condition. -/
def optTextMatch (corr : String) : Option String → Bool
  | none => false
  | some v => pyLower (pyStrip v) == pyLower (pyStrip corr)

/-- Modelled from the spec: the §4.3 reference algorithm for resolving the
correct letter, exactly as the spec words it: a letter-valued `correcta`
(case-insensitive, trimmed) wins; otherwise the first of A, B, C whose
option text equals `correcta` case-insensitively after trimming; otherwise
`"A"`. -/
def spec_correct_letter (q : Question) : String :=
  match q.correcta with
  | none => "A"
  | some corr =>
    let corr_up := pyUpper (pyStrip corr)
    if corr_up = "A" ∨ corr_up = "B" ∨ corr_up = "C" then corr_up
    else
      if optTextMatch corr q.respuesta_a then "A"
      else if optTextMatch corr q.respuesta_b then "B"
      else if optTextMatch corr q.respuesta_c then "C"
      else "A"

/-- `is_lot_completed` (src/main.py lines 83-92): false for an empty lot,
else true iff every question of the lot has a record with `correct` true. -/
def is_lot_completed (bank : List Question) (ans : Answers) (lote_id : Int) : Bool :=
  let lot_questions := bank.filter (fun q => q.lote_id == lote_id)
  if lot_questions.isEmpty then false
  else lot_questions.all (fun q => recCorrect (lookupAns ans q.n))

/-- The record returned by `totals` (src/main.py lines 94-111). `wrong` is
Python integer subtraction, so it is an `Int`; `progress` is the exact
value of the Python float division. -/
structure Totals where
  attempted : Nat
  correct : Nat
  wrong : Int
  total : Nat
  progress : ℚ
  completed_lots : Nat
deriving DecidableEq

/-- `totals` (src/main.py lines 94-111). -/
def totals (bank : List Question) (ans : Answers) : Totals :=
  let attempted := ans.countP (fun p => decide (1 ≤ p.2.attempts))
  let correct := ans.countP (fun p => p.2.correct)
  let wrong : Int := (attempted : Int) - (correct : Int)
  let total_questions := bank.length
  let progress : ℚ :=
    if total_questions = 0 then 0 else (correct : ℚ) / (total_questions : ℚ)
  let completed_lots :=
    ((([1, 2, 3] : List Int)).filter (fun lid => is_lot_completed bank ans lid)).length
  { attempted := attempted
    correct := correct
    wrong := wrong
    total := total_questions
    progress := progress
    completed_lots := completed_lots }

/-- `reset_results` (src/main.py lines 116-120). -/
def reset_results (st : SessionState) : SessionState :=
  { st with answers := [], locked := [], current_index := 0, last_feedback := none }

/-- `next_question` (src/main.py lines 122-124). -/
def next_question (st : SessionState) : SessionState :=
  { st with current_index := st.current_index + 1, last_feedback := none }

/-- `prev_question` (src/main.py lines 126-128); `max(0, i - 1)` is `Nat`
truncated subtraction. -/
def prev_question (st : SessionState) : SessionState :=
  { st with current_index := st.current_index - 1, last_feedback := none }

/-- The sidebar mode change (src/main.py lines 148-151): only on an actual
change does it reset the index and the feedback slot. -/
def set_mode (st : SessionState) (m : String) : SessionState :=
  if m ≠ st.mode then
    { st with mode := m, current_index := 0, last_feedback := none }
  else st

/-- The sidebar feedback checkbox (src/main.py lines 153-156). -/
def set_show_correct_between (st : SessionState) (b : Bool) : SessionState :=
  { st with show_correct_between := b }

/-- The index clamp before display (src/main.py line 209), applied when the
mode list is nonempty: `current_index = min(current_index, total - 1)`. -/
def clamp_index (st : SessionState) (total : Nat) : SessionState :=
  if total = 0 then st
  else { st with current_index := min st.current_index (total - 1) }

/-- The submit handler (src/main.py lines 241-278), including its guard:
the Responder button is disabled when the question is locked and not
previously correct (line 242), so a submission then leaves the state
untouched. Otherwise the handler body runs: an already-correct record only
gets its `selected` updated; else attempts are incremented, `selected` is
set, and either `correct` flips to true (right letter) or the question is
locked (wrong letter); in every case it advances to the next question. -/
def submit_answer (st : SessionState) (q : Question) (choice : String) :
    SessionState :=
  let prev := lookupAns st.answers q.n
  if st.locked.contains q.n && !recCorrect prev then st
  else
    let correct_letter := get_correct_letter q
    let a := prev.getD
      { attempts := 0, correct := false, selected := none, lote_id := q.lote_id }
    if a.correct then
      next_question
        { st with answers := setAns st.answers q.n { a with selected := some choice } }
    else
      let a2 := { a with attempts := a.attempts + 1, selected := some choice }
      if choice = correct_letter then
        next_question
          { st with answers := setAns st.answers q.n { a2 with correct := true } }
      else
        next_question
          { st with answers := setAns st.answers q.n a2,
                    locked := addLocked q.n st.locked }

/-- One user action, as dispatched by the page script. -/
inductive Step : SessionState → SessionState → Prop
  | submit (st : SessionState) (q : Question) (c : String) :
      Step st (submit_answer st q c)
  | next (st : SessionState) : Step st (next_question st)
  | prev (st : SessionState) : Step st (prev_question st)
  | setMode (st : SessionState) (m : String) : Step st (set_mode st m)
  | setShow (st : SessionState) (b : Bool) : Step st (set_show_correct_between st b)
  | clamp (st : SessionState) (t : Nat) : Step st (clamp_index st t)
  | reset (st : SessionState) : Step st (reset_results st)

/-- States reachable from the initial session state by user actions. -/
inductive Reachable : SessionState → Prop
  | init : Reachable init_state
  | step {st st2 : SessionState} : Reachable st → Step st st2 → Reachable st2

/-- A failed record in the sense of review mode and of the locking
invariant: at least one attempt and not correct. -/
def failingRec : Option AnswerRecord → Bool
  | none => false
  | some r => decide (1 ≤ r.attempts) && !r.correct

/-- The locking invariant of the spec: a question number is in the locked
set exactly when its answer record exists with at least one attempt and
`correct` false. -/
def lockedInv (st : SessionState) : Prop :=
  ∀ n : Int, st.locked.contains n = true ↔
    ∃ r, lookupAns st.answers n = some r ∧ 1 ≤ r.attempts ∧ r.correct = false

/-- Question `n` is locked while still incorrect: the configuration in
which the Responder button is disabled for it. -/
def lockedIncorrect (n : Int) (st : SessionState) : Prop :=
  st.locked.contains n = true ∧ recCorrect (lookupAns st.answers n) = false

/-- A sample question whose `correcta` is the letter `"A"`. -/
def qLetterA : Question :=
  { n := 1, lote_id := 1, pregunta := "p"
    respuesta_a := some "x", respuesta_b := some "y", respuesta_c := some "z"
    correcta := some "A" }

/-- A second sample question (batch 1, number 2, correct letter `"B"`). -/
def qLetterB : Question :=
  { n := 2, lote_id := 1, pregunta := "p2"
    respuesta_a := some "x", respuesta_b := some "y", respuesta_c := some "z"
    correcta := some "B" }

/-- A question with an empty option text: `correcta` is a blank string, so
the letter step fails, and the text of option B (the empty string) equals
the stripped `correcta` — but the code skips the falsy empty option. -/
def qEmptyOptB : Question :=
  { n := 3, lote_id := 1, pregunta := "p3"
    respuesta_a := some "x", respuesta_b := some "", respuesta_c := some "y"
    correcta := some " " }

/-- The state after answering question 1 wrongly from the initial state. -/
def stWrong1 : SessionState := submit_answer init_state qLetterA "B"

/-- The state after answering question 1 correctly from the initial state. -/
def stRight1 : SessionState := submit_answer init_state qLetterA "A"

/-- A dict with question 1 failed and question 2 answered correctly. -/
def ansW : Answers :=
  [(1, { attempts := 1, correct := false, selected := some "B", lote_id := 1 }),
   (2, { attempts := 1, correct := true, selected := some "B", lote_id := 1 })]

/-- The batch id stored by a submit: the existing record keeps its own,
a fresh record copies the question's. -/
def recLote (o : Option AnswerRecord) (q : Question) : Int :=
  match o with
  | none => q.lote_id
  | some r => r.lote_id

/-- The record written back by the not-yet-correct submit branch before the
correctness test: attempts bumped by one, the chosen letter recorded. -/
def bumpRec (o : Option AnswerRecord) (q : Question) (c : String) : AnswerRecord :=
  { attempts := recAttempts o + 1, correct := false, selected := some c
    lote_id := recLote o q }

/-- Every stored answer record has been attempted at least once. -/
def attemptsInv (st : SessionState) : Prop :=
  ∀ p ∈ st.answers, 1 ≤ p.2.attempts

/-- The answers dict has one entry per question number. -/
def keysNodup (st : SessionState) : Prop :=
  (st.answers.map Prod.fst).Nodup

/-! Helper lemmas about the dict and set models. -/

theorem lookupAns_setAns_self (ans : Answers) (n : Int) (r : AnswerRecord) :
    lookupAns (setAns ans n r) n = some r := by
  induction ans with
  | nil => simp [setAns, lookupAns]
  | cons p rest ih =>
    obtain ⟨m, s⟩ := p
    by_cases h : m = n
    · simp [setAns, h, lookupAns]
    · simp [setAns, h, lookupAns, ih]

theorem lookupAns_setAns_ne (ans : Answers) (n k : Int) (r : AnswerRecord)
    (h : k ≠ n) : lookupAns (setAns ans n r) k = lookupAns ans k := by
  induction ans with
  | nil => simp [setAns, lookupAns, Ne.symm h]
  | cons p rest ih =>
    obtain ⟨m, s⟩ := p
    by_cases hm : m = n
    · subst hm
      simp [setAns, lookupAns, Ne.symm h]
    · simp [setAns, hm, lookupAns, ih]

theorem mem_setAns {ans : Answers} {n : Int} {r : AnswerRecord} {p : Int × AnswerRecord}
    (h : p ∈ setAns ans n r) : p = (n, r) ∨ p ∈ ans := by
  induction ans with
  | nil => simpa [setAns] using h
  | cons hd rest ih =>
    obtain ⟨m, s⟩ := hd
    by_cases hm : m = n
    · simp only [setAns, if_pos hm, List.mem_cons] at h
      rcases h with h | h
      · exact Or.inl h
      · exact Or.inr (List.mem_cons_of_mem _ h)
    · simp only [setAns, if_neg hm, List.mem_cons] at h
      rcases h with h | h
      · exact Or.inr (by simp [h])
      · rcases ih h with h2 | h2
        · exact Or.inl h2
        · exact Or.inr (List.mem_cons_of_mem _ h2)

theorem lookupAns_mem {ans : Answers} {n : Int} {r : AnswerRecord}
    (h : lookupAns ans n = some r) : (n, r) ∈ ans := by
  induction ans with
  | nil => simp [lookupAns] at h
  | cons hd rest ih =>
    obtain ⟨m, s⟩ := hd
    by_cases hm : m = n
    · subst hm
      have hs : lookupAns ((m, s) :: rest) m = some s := by simp [lookupAns]
      rw [hs, Option.some.injEq] at h
      rw [← h]
      exact List.mem_cons_self _ _
    · simp only [lookupAns, if_neg hm] at h
      exact List.mem_cons_of_mem _ (ih h)

theorem keys_setAns_mem {ans : Answers} {n k : Int} {r : AnswerRecord}
    (h : k ∈ (setAns ans n r).map Prod.fst) :
    k = n ∨ k ∈ ans.map Prod.fst := by
  rcases List.mem_map.mp h with ⟨p, hp, hk⟩
  rcases mem_setAns hp with h2 | h2
  · left
    rw [← hk, h2]
  · right
    exact List.mem_map.mpr ⟨p, h2, hk⟩

theorem nodup_keys_setAns {ans : Answers} {n : Int} {r : AnswerRecord}
    (h : (ans.map Prod.fst).Nodup) :
    ((setAns ans n r).map Prod.fst).Nodup := by
  induction ans with
  | nil => simp [setAns]
  | cons hd rest ih =>
    obtain ⟨m, s⟩ := hd
    simp only [List.map_cons, List.nodup_cons] at h
    by_cases hm : m = n
    · subst hm
      simpa [setAns, List.nodup_cons] using h
    · simp only [setAns, if_neg hm, List.map_cons, List.nodup_cons]
      refine ⟨?_, ih h.2⟩
      intro hmem
      rcases keys_setAns_mem hmem with h2 | h2
      · exact hm h2
      · exact h.1 h2

theorem lookupAns_eq_none {ans : Answers} {n : Int}
    (h : n ∉ ans.map Prod.fst) : lookupAns ans n = none := by
  induction ans with
  | nil => rfl
  | cons hd rest ih =>
    obtain ⟨m, s⟩ := hd
    simp only [List.map_cons, List.mem_cons] at h
    push_neg at h
    simp only [lookupAns, if_neg (Ne.symm h.1), ih h.2]

theorem contains_addLocked (l : List Int) (n k : Int) :
    (addLocked n l).contains k = true ↔ k = n ∨ l.contains k = true := by
  unfold addLocked
  by_cases h : l.contains n
  · simp only [if_pos h]
    constructor
    · exact Or.inr
    · rintro (rfl | h2)
      · exact h
      · exact h2
  · simp only [if_neg h]
    simp

/-! Case lemmas for the submit handler. -/

theorem submit_answer_locked (st : SessionState) (q : Question) (c : String)
    (hl : st.locked.contains q.n = true)
    (hc : recCorrect (lookupAns st.answers q.n) = false) :
    submit_answer st q c = st := by
  simp only [submit_answer, hl, hc]
  rfl

theorem submit_answer_already_correct (st : SessionState) (q : Question) (c : String)
    (r : AnswerRecord)
    (hr : lookupAns st.answers q.n = some r) (hc : r.correct = true) :
    submit_answer st q c =
      next_question
        { st with answers := setAns st.answers q.n { r with selected := some c } } := by
  simp only [submit_answer, hr, recCorrect, hc, Bool.not_true, Bool.and_false,
    Bool.false_eq_true, if_false, Option.getD_some, if_true]

theorem submit_answer_right (st : SessionState) (q : Question) (c : String)
    (hc : recCorrect (lookupAns st.answers q.n) = false)
    (hl : st.locked.contains q.n = false)
    (heq : c = get_correct_letter q) :
    submit_answer st q c =
      next_question { st with answers := setAns st.answers q.n { bumpRec (lookupAns st.answers q.n) q c with correct := true } } := by
  cases hprev : lookupAns st.answers q.n with
  | none =>
    simp only [submit_answer, hprev, hl, recCorrect, bumpRec, recAttempts, recLote,
      Option.getD_none, Bool.false_and, Bool.false_eq_true, if_false, heq,
      if_true, Nat.zero_add]
  | some r =>
    have hrc : r.correct = false := by
      rw [hprev] at hc
      simpa [recCorrect] using hc
    simp only [submit_answer, hprev, hl, recCorrect, bumpRec, recAttempts, recLote,
      Option.getD_some, Bool.false_and, Bool.false_eq_true, if_false, hrc, heq, if_true]

theorem submit_answer_wrong (st : SessionState) (q : Question) (c : String)
    (hc : recCorrect (lookupAns st.answers q.n) = false)
    (hl : st.locked.contains q.n = false)
    (hne : c ≠ get_correct_letter q) :
    submit_answer st q c =
      next_question { st with answers := setAns st.answers q.n (bumpRec (lookupAns st.answers q.n) q c), locked := addLocked q.n st.locked } := by
  cases hprev : lookupAns st.answers q.n with
  | none =>
    simp only [submit_answer, hprev, hl, recCorrect, bumpRec, recAttempts, recLote,
      Option.getD_none, Bool.false_and, Bool.false_eq_true, if_false, hne,
      Nat.zero_add]
  | some r =>
    have hrc : r.correct = false := by
      rw [hprev] at hc
      simpa [recCorrect] using hc
    simp only [submit_answer, hprev, hl, recCorrect, bumpRec, recAttempts, recLote,
      Option.getD_some, Bool.false_and, Bool.false_eq_true, if_false, hrc, hne]

/-! Preservation of the locking invariant. -/

theorem lockedInv_set_correct {st : SessionState} {q : Question} {R : AnswerRecord}
    (h : lockedInv st) (hR : R.correct = true)
    (hl : st.locked.contains q.n = false) :
    lockedInv (next_question { st with answers := setAns st.answers q.n R }) := by
  intro n
  by_cases hn : n = q.n
  · subst hn
    simp only [next_question]
    rw [lookupAns_setAns_self, hl]
    simp [hR]
  · simp only [next_question]
    rw [lookupAns_setAns_ne _ _ _ _ hn]
    exact h n

theorem lockedInv_set_wrong {st : SessionState} {q : Question} {R : AnswerRecord}
    (h : lockedInv st) (hR : R.correct = false) (hRa : 1 ≤ R.attempts) :
    lockedInv (next_question { st with answers := setAns st.answers q.n R, locked := addLocked q.n st.locked }) := by
  intro n
  by_cases hn : n = q.n
  · subst hn
    simp only [next_question]
    rw [lookupAns_setAns_self]
    constructor
    · intro _
      exact ⟨R, rfl, hRa, hR⟩
    · intro _
      exact (contains_addLocked _ _ _).mpr (Or.inl rfl)
  · simp only [next_question]
    rw [lookupAns_setAns_ne _ _ _ _ hn]
    constructor
    · intro hcont
      rcases (contains_addLocked _ _ _).mp hcont with h2 | h2
      · exact absurd h2 hn
      · exact (h n).mp h2
    · intro hex
      exact (contains_addLocked _ _ _).mpr (Or.inr ((h n).mpr hex))

theorem lockedInv_submit {st : SessionState} (q : Question) (c : String)
    (h : lockedInv st) : lockedInv (submit_answer st q c) := by
  cases hprev : lookupAns st.answers q.n with
  | none =>
    have hrc : recCorrect (lookupAns st.answers q.n) = false := by simp [hprev, recCorrect]
    by_cases hl : st.locked.contains q.n = true
    · rw [submit_answer_locked st q c hl hrc]
      exact h
    · have hl2 : st.locked.contains q.n = false := by simpa using hl
      by_cases heq : c = get_correct_letter q
      · rw [submit_answer_right st q c hrc hl2 heq]
        exact lockedInv_set_correct h rfl hl2
      · rw [submit_answer_wrong st q c hrc hl2 heq]
        exact lockedInv_set_wrong h rfl (Nat.le_add_left 1 _)
  | some r =>
    cases hrc : r.correct with
    | true =>
      have hl2 : st.locked.contains q.n = false := by
        by_contra hcon
        have hcon2 : st.locked.contains q.n = true := by simpa using hcon
        rcases (h q.n).mp hcon2 with ⟨r2, hr2, _, hr2c⟩
        rw [hprev, Option.some.injEq] at hr2
        subst hr2
        rw [hrc] at hr2c
        exact absurd hr2c (by decide)
      rw [submit_answer_already_correct st q c r hprev hrc]
      exact lockedInv_set_correct h hrc hl2
    | false =>
      have hrcf : recCorrect (lookupAns st.answers q.n) = false := by
        simp [hprev, recCorrect, hrc]
      by_cases hl : st.locked.contains q.n = true
      · rw [submit_answer_locked st q c hl hrcf]
        exact h
      · have hl2 : st.locked.contains q.n = false := by simpa using hl
        by_cases heq : c = get_correct_letter q
        · rw [submit_answer_right st q c hrcf hl2 heq]
          exact lockedInv_set_correct h rfl hl2
        · rw [submit_answer_wrong st q c hrcf hl2 heq]
          exact lockedInv_set_wrong h rfl (Nat.le_add_left 1 _)

/-! Step and reachability preservation of the invariants. -/

theorem lockedInv_step {st st2 : SessionState} (h : lockedInv st) (hs : Step st st2) :
    lockedInv st2 := by
  cases hs with
  | submit q c => exact lockedInv_submit q c h
  | next => exact h
  | prev => exact h
  | setMode m =>
    unfold lockedInv set_mode
    split
    · exact h
    · exact h
  | setShow b => exact h
  | clamp t =>
    unfold lockedInv clamp_index
    split
    · exact h
    · exact h
  | reset =>
    intro n
    simp [reset_results, lookupAns]

theorem reachable_lockedInv {st : SessionState} (h : Reachable st) : lockedInv st := by
  induction h with
  | init =>
    intro n
    simp [init_state, lookupAns]
  | step _ hs ih => exact lockedInv_step ih hs

theorem attemptsInv_submit {st : SessionState} (q : Question) (c : String)
    (h : attemptsInv st) : attemptsInv (submit_answer st q c) := by
  cases hprev : lookupAns st.answers q.n with
  | none =>
    have hrc : recCorrect (lookupAns st.answers q.n) = false := by simp [hprev, recCorrect]
    by_cases hl : st.locked.contains q.n = true
    · rw [submit_answer_locked st q c hl hrc]
      exact h
    · have hl2 : st.locked.contains q.n = false := by simpa using hl
      by_cases heq : c = get_correct_letter q
      · rw [submit_answer_right st q c hrc hl2 heq]
        intro p hp
        rcases mem_setAns hp with h2 | h2
        · rw [h2]
          exact Nat.le_add_left 1 _
        · exact h p h2
      · rw [submit_answer_wrong st q c hrc hl2 heq]
        intro p hp
        rcases mem_setAns hp with h2 | h2
        · rw [h2]
          exact Nat.le_add_left 1 _
        · exact h p h2
  | some r =>
    cases hrc : r.correct with
    | true =>
      rw [submit_answer_already_correct st q c r hprev hrc]
      intro p hp
      rcases mem_setAns hp with h2 | h2
      · rw [h2]
        exact h (q.n, r) (lookupAns_mem hprev)
      · exact h p h2
    | false =>
      have hrcf : recCorrect (lookupAns st.answers q.n) = false := by
        simp [hprev, recCorrect, hrc]
      by_cases hl : st.locked.contains q.n = true
      · rw [submit_answer_locked st q c hl hrcf]
        exact h
      · have hl2 : st.locked.contains q.n = false := by simpa using hl
        by_cases heq : c = get_correct_letter q
        · rw [submit_answer_right st q c hrcf hl2 heq]
          intro p hp
          rcases mem_setAns hp with h2 | h2
          · rw [h2]
            exact Nat.le_add_left 1 _
          · exact h p h2
        · rw [submit_answer_wrong st q c hrcf hl2 heq]
          intro p hp
          rcases mem_setAns hp with h2 | h2
          · rw [h2]
            exact Nat.le_add_left 1 _
          · exact h p h2

theorem attemptsInv_step {st st2 : SessionState} (h : attemptsInv st) (hs : Step st st2) :
    attemptsInv st2 := by
  cases hs with
  | submit q c => exact attemptsInv_submit q c h
  | next => exact h
  | prev => exact h
  | setMode m =>
    unfold attemptsInv set_mode
    split
    · exact h
    · exact h
  | setShow b => exact h
  | clamp t =>
    unfold attemptsInv clamp_index
    split
    · exact h
    · exact h
  | reset =>
    intro p hp
    simp [reset_results] at hp

theorem reachable_attemptsInv {st : SessionState} (h : Reachable st) : attemptsInv st := by
  induction h with
  | init =>
    intro p hp
    simp [init_state] at hp
  | step _ hs ih => exact attemptsInv_step ih hs

theorem keysNodup_submit {st : SessionState} (q : Question) (c : String)
    (h : keysNodup st) : keysNodup (submit_answer st q c) := by
  cases hprev : lookupAns st.answers q.n with
  | none =>
    have hrc : recCorrect (lookupAns st.answers q.n) = false := by simp [hprev, recCorrect]
    by_cases hl : st.locked.contains q.n = true
    · rw [submit_answer_locked st q c hl hrc]
      exact h
    · have hl2 : st.locked.contains q.n = false := by simpa using hl
      by_cases heq : c = get_correct_letter q
      · rw [submit_answer_right st q c hrc hl2 heq]
        exact nodup_keys_setAns h
      · rw [submit_answer_wrong st q c hrc hl2 heq]
        exact nodup_keys_setAns h
  | some r =>
    cases hrc : r.correct with
    | true =>
      rw [submit_answer_already_correct st q c r hprev hrc]
      exact nodup_keys_setAns h
    | false =>
      have hrcf : recCorrect (lookupAns st.answers q.n) = false := by
        simp [hprev, recCorrect, hrc]
      by_cases hl : st.locked.contains q.n = true
      · rw [submit_answer_locked st q c hl hrcf]
        exact h
      · have hl2 : st.locked.contains q.n = false := by simpa using hl
        by_cases heq : c = get_correct_letter q
        · rw [submit_answer_right st q c hrcf hl2 heq]
          exact nodup_keys_setAns h
        · rw [submit_answer_wrong st q c hrcf hl2 heq]
          exact nodup_keys_setAns h

theorem keysNodup_step {st st2 : SessionState} (h : keysNodup st) (hs : Step st st2) :
    keysNodup st2 := by
  cases hs with
  | submit q c => exact keysNodup_submit q c h
  | next => exact h
  | prev => exact h
  | setMode m =>
    unfold keysNodup set_mode
    split
    · exact h
    · exact h
  | setShow b => exact h
  | clamp t =>
    unfold keysNodup clamp_index
    split
    · exact h
    · exact h
  | reset => simp [keysNodup, reset_results]

theorem reachable_keysNodup {st : SessionState} (h : Reachable st) : keysNodup st := by
  induction h with
  | init => simp [keysNodup, init_state]
  | step _ hs ih => exact keysNodup_step ih hs

/-! Further helper lemmas used by the claim theorems. -/

theorem recCorrect_true_iff (o : Option AnswerRecord) :
    recCorrect o = true ↔ ∃ r, o = some r ∧ r.correct = true := by
  cases o <;> simp [recCorrect]

theorem lookupAns_cons_self (m : Int) (s : AnswerRecord) (rest : Answers) :
    lookupAns ((m, s) :: rest) m = some s := by
  simp [lookupAns]

theorem lookupAns_cons_ne {m n : Int} (s : AnswerRecord) (rest : Answers)
    (h : m ≠ n) : lookupAns ((m, s) :: rest) n = lookupAns rest n := by
  simp [lookupAns, h]

theorem keys_filter_subset {l : Answers} {p : Int × AnswerRecord → Bool} {k : Int}
    (h : k ∈ (l.filter p).map Prod.fst) : k ∈ l.map Prod.fst := by
  rcases List.mem_map.mp h with ⟨x, hx, hk⟩
  exact List.mem_map.mpr ⟨x, (List.mem_filter.mp hx).1, hk⟩

theorem mem_failed_keys_iff (ans : Answers) (n : Int)
    (hnd : (ans.map Prod.fst).Nodup) :
    (n ∈ (ans.filter (fun p => decide (1 ≤ p.2.attempts) && !p.2.correct)).map Prod.fst)
      ↔ failingRec (lookupAns ans n) = true := by
  induction ans with
  | nil => simp [lookupAns, failingRec]
  | cons hd rest ih =>
    obtain ⟨m, s⟩ := hd
    simp only [List.map_cons, List.nodup_cons] at hnd
    by_cases hm : m = n
    · subst hm
      rw [lookupAns_cons_self]
      cases hp : (decide (1 ≤ s.attempts) && !s.correct) with
      | true => simp [List.filter_cons, hp, failingRec]
      | false =>
        have hfR : failingRec (some s) = false := by simpa [failingRec] using hp
        rw [hfR]
        simp only [Bool.false_eq_true, iff_false, List.filter_cons, hp, if_false]
        intro hmem
        exact absurd (keys_filter_subset hmem) hnd.1
    · rw [lookupAns_cons_ne s rest hm]
      cases hp : (decide (1 ≤ s.attempts) && !s.correct) with
      | true => simpa [List.filter_cons, hp, Ne.symm hm] using ih hnd.2
      | false => simpa [List.filter_cons, hp] using ih hnd.2

theorem optMatch_eq {corr : String} {v : Option String} (hv : v ≠ some "") :
    optTruthyMatch corr v = optTextMatch corr v := by
  cases v with
  | none => rfl
  | some s =>
    have hs : s ≠ "" := fun h => hv (by rw [h])
    simp [optTruthyMatch, optTextMatch, hs]

theorem submit_answer_cases (st : SessionState) (q : Question) (c : String) :
    submit_answer st q c = st ∨
    ∃ R L, submit_answer st q c =
        next_question { st with answers := setAns st.answers q.n R, locked := L } ∧
      (L = st.locked ∨ L = addLocked q.n st.locked) := by
  cases hprev : lookupAns st.answers q.n with
  | none =>
    have hrc : recCorrect (lookupAns st.answers q.n) = false := by simp [hprev, recCorrect]
    by_cases hl : st.locked.contains q.n = true
    · exact Or.inl (submit_answer_locked st q c hl hrc)
    · have hl2 : st.locked.contains q.n = false := by simpa using hl
      by_cases heq : c = get_correct_letter q
      · exact Or.inr ⟨_, _, submit_answer_right st q c hrc hl2 heq, Or.inl rfl⟩
      · exact Or.inr ⟨_, _, submit_answer_wrong st q c hrc hl2 heq, Or.inr rfl⟩
  | some r =>
    cases hrc : r.correct with
    | true =>
      exact Or.inr ⟨_, _, submit_answer_already_correct st q c r hprev hrc, Or.inl rfl⟩
    | false =>
      have hrcf : recCorrect (lookupAns st.answers q.n) = false := by
        simp [hprev, recCorrect, hrc]
      by_cases hl : st.locked.contains q.n = true
      · exact Or.inl (submit_answer_locked st q c hl hrcf)
      · have hl2 : st.locked.contains q.n = false := by simpa using hl
        by_cases heq : c = get_correct_letter q
        · exact Or.inr ⟨_, _, submit_answer_right st q c hrcf hl2 heq, Or.inl rfl⟩
        · exact Or.inr ⟨_, _, submit_answer_wrong st q c hrcf hl2 heq, Or.inr rfl⟩

theorem lockedIncorrect_submit_other {st : SessionState} {n : Int} (q : Question)
    (c : String) (hqn : q.n ≠ n) (h : lockedIncorrect n st) :
    lockedIncorrect n (submit_answer st q c) := by
  rcases submit_answer_cases st q c with hid | ⟨R, L, heq, hL⟩
  · rw [hid]
    exact h
  · rw [heq]
    constructor
    · show L.contains n = true
      rcases hL with rfl | rfl
      · exact h.1
      · exact (contains_addLocked _ _ _).mpr (Or.inr h.1)
    · show recCorrect (lookupAns (setAns st.answers q.n R) n) = false
      rw [lookupAns_setAns_ne _ _ _ _ (Ne.symm hqn)]
      exact h.2

/-! The claim theorems. -/

/-- C1: for a question that is not yet correct (no record, or its record has
`correct = false`) and is not locked, submitting letter `c` increments the
record's attempts by exactly 1 and sets `selected = c`; if `c` equals the
resolved correct letter the record becomes correct and the locked set is
untouched, and if it differs the record stays incorrect and the question's
`n` enters the locked set; in both branches the current index advances. -/
theorem c1_submit_not_yet_correct (st : SessionState) (q : Question) (c : String)
    (hnc : recCorrect (lookupAns st.answers q.n) = false)
    (hnl : st.locked.contains q.n = false) :
    ∃ a2, lookupAns (submit_answer st q c).answers q.n = some a2 ∧
      a2.attempts = recAttempts (lookupAns st.answers q.n) + 1 ∧
      a2.selected = some c ∧
      (c = get_correct_letter q → a2.correct = true ∧
        (submit_answer st q c).locked = st.locked) ∧
      (c ≠ get_correct_letter q → a2.correct = false ∧
        (submit_answer st q c).locked.contains q.n = true) ∧
      (submit_answer st q c).current_index = st.current_index + 1 := by
  by_cases heq : c = get_correct_letter q
  · rw [submit_answer_right st q c hnc hnl heq]
    exact ⟨_, lookupAns_setAns_self _ _ _, rfl, rfl, fun _ => ⟨rfl, rfl⟩,
      fun hne => absurd heq hne, rfl⟩
  · rw [submit_answer_wrong st q c hnc hnl heq]
    exact ⟨_, lookupAns_setAns_self _ _ _, rfl, rfl, fun hc => absurd hc heq,
      fun _ => ⟨rfl, (contains_addLocked _ _ _).mpr (Or.inl rfl)⟩, rfl⟩

/-- Witness for C1: the initial state, question 1, and the wrong letter. -/
theorem c1_submit_not_yet_correct_witness :
    ∃ a2, lookupAns (submit_answer init_state qLetterA "B").answers qLetterA.n = some a2 ∧
      a2.attempts = recAttempts (lookupAns init_state.answers qLetterA.n) + 1 ∧
      a2.selected = some "B" ∧
      ("B" = get_correct_letter qLetterA → a2.correct = true ∧
        (submit_answer init_state qLetterA "B").locked = init_state.locked) ∧
      ("B" ≠ get_correct_letter qLetterA → a2.correct = false ∧
        (submit_answer init_state qLetterA "B").locked.contains qLetterA.n = true) ∧
      (submit_answer init_state qLetterA "B").current_index = init_state.current_index + 1 :=
  c1_submit_not_yet_correct init_state qLetterA "B" rfl rfl

/-- C2: in every reachable session state a question's `n` is in the locked
set iff its answer record exists with at least one attempt and
`correct = false`, and every user action (submit, navigation, mode change,
feedback toggle, clamping, reset) preserves this equivalence. -/
theorem c2_locked_iff_failing :
    (∀ st, Reachable st → lockedInv st) ∧
    (∀ st st2, lockedInv st → Step st st2 → lockedInv st2) :=
  ⟨fun _ h => reachable_lockedInv h, fun _ _ h hs => lockedInv_step h hs⟩

/-- Witness for C2: the invariant at the state reached by one wrong answer. -/
theorem c2_locked_iff_failing_witness : lockedInv stWrong1 :=
  c2_locked_iff_failing.1 stWrong1
    (Reachable.step Reachable.init (Step.submit init_state qLetterA "B"))

/-- C3: one incorrect submission locks the question (its record stays
incorrect), a submission for a locked-and-incorrect question is rejected
(the state is unchanged, so neither its record nor the locked set moves),
and every operation other than reset preserves the locked-and-incorrect
configuration. -/
theorem c3_lock_permanent_until_reset :
    (∀ (st : SessionState) (q : Question) (c : String),
       recCorrect (lookupAns st.answers q.n) = false →
       st.locked.contains q.n = false → c ≠ get_correct_letter q →
       lockedIncorrect q.n (submit_answer st q c)) ∧
    (∀ (st : SessionState) (q : Question) (c : String),
       lockedIncorrect q.n st → submit_answer st q c = st) ∧
    (∀ (st : SessionState) (n : Int), lockedIncorrect n st →
       (∀ (q : Question) (c : String), lockedIncorrect n (submit_answer st q c)) ∧
       lockedIncorrect n (next_question st) ∧
       lockedIncorrect n (prev_question st) ∧
       (∀ m, lockedIncorrect n (set_mode st m)) ∧
       (∀ b, lockedIncorrect n (set_show_correct_between st b)) ∧
       (∀ t, lockedIncorrect n (clamp_index st t))) := by
  refine ⟨?_, ?_, ?_⟩
  · intro st q c hnc hnl hne
    rw [submit_answer_wrong st q c hnc hnl hne]
    constructor
    · show (addLocked q.n st.locked).contains q.n = true
      exact (contains_addLocked _ _ _).mpr (Or.inl rfl)
    · show recCorrect (lookupAns (setAns st.answers q.n _) q.n) = false
      rw [lookupAns_setAns_self]
      rfl
  · intro st q c h
    exact submit_answer_locked st q c h.1 h.2
  · intro st n h
    refine ⟨?_, h, h, ?_, fun _ => h, ?_⟩
    · intro q c
      by_cases hqn : q.n = n
      · subst hqn
        rw [submit_answer_locked st q c h.1 h.2]
        exact h
      · exact lockedIncorrect_submit_other q c hqn h
    · intro m
      unfold lockedIncorrect set_mode
      split
      · exact h
      · exact h
    · intro t
      unfold lockedIncorrect clamp_index
      split
      · exact h
      · exact h

/-- Witness for C3: question 1 is locked after one wrong answer and a
further submission for it leaves the state unchanged. -/
theorem c3_lock_permanent_until_reset_witness :
    lockedIncorrect qLetterA.n stWrong1 ∧ submit_answer stWrong1 qLetterA "A" = stWrong1 := by
  have h1 : lockedIncorrect qLetterA.n stWrong1 :=
    c3_lock_permanent_until_reset.1 init_state qLetterA "B" rfl rfl (by decide)
  exact ⟨h1, c3_lock_permanent_until_reset.2.1 stWrong1 qLetterA "A" h1⟩

/-- C4 counterexample: the claim that the code's letter resolution equals
the §4.3 reference algorithm fails when an option text is the empty
string. Here `correcta` is a blank string and option B's text is empty:
the reference algorithm matches option B (both trim to the empty string),
but the code skips the falsy empty option and falls back to "A". -/
theorem c4_resolution_counterexample :
    get_correct_letter qEmptyOptB = "A" ∧ spec_correct_letter qEmptyOptB = "B" ∧
    get_correct_letter qEmptyOptB ≠ spec_correct_letter qEmptyOptB :=
  ⟨by decide, by decide, by decide⟩

/-- C4 (amended): the code's letter resolution agrees with the §4.3
reference algorithm for every question whose present option texts are
non-empty (the code skips empty or missing option texts in the text-match
step), and in all cases — malformed `correcta` included — the result is
one of "A", "B", "C". -/
theorem c4_resolution_amended :
    (∀ q : Question, q.respuesta_a ≠ some "" → q.respuesta_b ≠ some "" →
       q.respuesta_c ≠ some "" → get_correct_letter q = spec_correct_letter q) ∧
    (∀ q : Question, get_correct_letter q = "A" ∨ get_correct_letter q = "B" ∨
       get_correct_letter q = "C") := by
  constructor
  · intro q ha hb hc
    unfold get_correct_letter spec_correct_letter
    cases hq : q.correcta with
    | none => rfl
    | some corr =>
      dsimp only
      rw [optMatch_eq ha, optMatch_eq hb, optMatch_eq hc]
  · intro q
    unfold get_correct_letter
    cases hq : q.correcta with
    | none => exact Or.inl rfl
    | some corr =>
      dsimp only
      split
      · next h =>
        rcases h with h | h | h
        · exact Or.inl h
        · exact Or.inr (Or.inl h)
        · exact Or.inr (Or.inr h)
      · split
        · exact Or.inl rfl
        · split
          · exact Or.inr (Or.inl rfl)
          · split
            · exact Or.inr (Or.inr rfl)
            · exact Or.inl rfl

/-- Witness for C4 (amended) at two concrete questions. -/
theorem c4_resolution_amended_witness :
    get_correct_letter qLetterA = spec_correct_letter qLetterA ∧
    (get_correct_letter qLetterB = "A" ∨ get_correct_letter qLetterB = "B" ∨
      get_correct_letter qLetterB = "C") :=
  ⟨c4_resolution_amended.1 qLetterA (by decide) (by decide) (by decide),
    c4_resolution_amended.2 qLetterB⟩

/-- C5: resubmitting any letter for a question whose record is already
correct leaves attempts and correctness unchanged, only updates the
recorded selection, touches no other record, never locks the question, and
still advances the index. -/
theorem c5_already_correct_resubmit (st : SessionState) (q : Question) (c : String)
    (r : AnswerRecord) (hr : lookupAns st.answers q.n = some r) (hc : r.correct = true) :
    ∃ a2, lookupAns (submit_answer st q c).answers q.n = some a2 ∧
      a2.attempts = r.attempts ∧ a2.correct = true ∧ a2.selected = some c ∧
      (∀ m, m ≠ q.n → lookupAns (submit_answer st q c).answers m = lookupAns st.answers m) ∧
      (submit_answer st q c).locked = st.locked ∧
      (submit_answer st q c).current_index = st.current_index + 1 := by
  rw [submit_answer_already_correct st q c r hr hc]
  exact ⟨_, lookupAns_setAns_self _ _ _, rfl, hc, rfl,
    fun m hm => lookupAns_setAns_ne _ _ _ _ hm, rfl, rfl⟩

/-- Witness for C5: re-answering the already-correct question 1 with "C". -/
theorem c5_already_correct_resubmit_witness :
    ∃ a2, lookupAns (submit_answer stRight1 qLetterA "C").answers qLetterA.n = some a2 ∧
      a2.attempts = 1 ∧ a2.correct = true ∧ a2.selected = some "C" ∧
      (∀ m, m ≠ qLetterA.n → lookupAns (submit_answer stRight1 qLetterA "C").answers m =
        lookupAns stRight1.answers m) ∧
      (submit_answer stRight1 qLetterA "C").locked = stRight1.locked ∧
      (submit_answer stRight1 qLetterA "C").current_index = stRight1.current_index + 1 :=
  c5_already_correct_resubmit stRight1 qLetterA "C"
    { attempts := 1, correct := true, selected := some "A", lote_id := 1 } (by decide) rfl

/-- C6: review mode returns exactly the questions of the bank whose number
has a record with at least one attempt and `correct = false`, as a filter
of the bank in load order; correctly answered questions are excluded,
failed ones included, and the empty list is a possible plain result. -/
theorem c6_review_mode_questions (bank : List Question) (ans : Answers)
    (hnd : (ans.map Prod.fst).Nodup) :
    get_questions_for_mode bank ans "review" =
      bank.filter (fun q => failingRec (lookupAns ans q.n)) := by
  have hstep : get_questions_for_mode bank ans "review" =
      bank.filter (fun q =>
        ((ans.filter (fun p => decide (1 ≤ p.2.attempts) && !p.2.correct)).map
          Prod.fst).contains q.n) := rfl
  rw [hstep]
  apply List.filter_congr
  intro q _
  have h1 := mem_failed_keys_iff ans q.n hnd
  rw [Bool.eq_iff_iff]
  constructor
  · intro hcont
    exact h1.mp (by simpa using hcont)
  · intro hfail
    simpa using h1.mpr hfail

/-- Witness for C6: with question 1 failed and question 2 correct, review
mode is the failing filter of the two-question bank. -/
theorem c6_review_mode_questions_witness :
    get_questions_for_mode [qLetterA, qLetterB] ansW "review" =
      List.filter (fun q => failingRec (lookupAns ansW q.n)) [qLetterA, qLetterB] :=
  c6_review_mode_questions [qLetterA, qLetterB] ansW (by decide)

/-- C7: a batch is completed exactly when it contains at least one question
and every question of the batch has an answer record with `correct = true`;
an empty or nonexistent batch is never completed. -/
theorem c7_batch_completed_iff (bank : List Question) (ans : Answers) (k : Int) :
    is_lot_completed bank ans k = true ↔
      (∃ q ∈ bank, q.lote_id = k) ∧
      (∀ q ∈ bank, q.lote_id = k → ∃ r, lookupAns ans q.n = some r ∧ r.correct = true) := by
  simp only [is_lot_completed]
  by_cases hemp : (bank.filter (fun q2 => q2.lote_id == k)).isEmpty = true
  · rw [if_pos hemp]
    simp only [Bool.false_eq_true, false_iff, not_and]
    rintro ⟨q, hq, hqk⟩
    exfalso
    have hmem : q ∈ bank.filter (fun q2 => q2.lote_id == k) :=
      List.mem_filter.mpr ⟨hq, by simp [hqk]⟩
    rw [List.isEmpty_iff] at hemp
    rw [hemp] at hmem
    exact List.not_mem_nil q hmem
  · rw [if_neg hemp]
    constructor
    · intro hall
      rw [List.all_eq_true] at hall
      constructor
      · cases hl : bank.filter (fun q2 => q2.lote_id == k) with
        | nil => exact absurd (by simp [hl]) hemp
        | cons a as =>
          have ha : a ∈ bank.filter (fun q2 => q2.lote_id == k) := by
            rw [hl]
            exact List.mem_cons_self _ _
          rcases List.mem_filter.mp ha with ⟨hab, hak⟩
          exact ⟨a, hab, by simpa using hak⟩
      · intro q hq hqk
        have hmem : q ∈ bank.filter (fun q2 => q2.lote_id == k) :=
          List.mem_filter.mpr ⟨hq, by simp [hqk]⟩
        exact (recCorrect_true_iff _).mp (hall q hmem)
    · rintro ⟨-, hforall⟩
      rw [List.all_eq_true]
      intro q hq
      rcases List.mem_filter.mp hq with ⟨hqb, hqk⟩
      exact (recCorrect_true_iff _).mpr (hforall q hqb (by simpa using hqk))

/-- C8: reset empties the answers dict (so the totals report zero attempted
and zero correct), empties the locked set, returns the index to 0 and
clears the feedback slot, while leaving the mode and the feedback
preference untouched. -/
theorem c8_reset_clears (st : SessionState) (bank : List Question) (n : Int) :
    (reset_results st).answers = [] ∧
    (totals bank (reset_results st).answers).attempted = 0 ∧
    (totals bank (reset_results st).answers).correct = 0 ∧
    (reset_results st).locked.contains n = false ∧
    (reset_results st).current_index = 0 ∧
    (reset_results st).last_feedback = none ∧
    (reset_results st).mode = st.mode ∧
    (reset_results st).show_correct_between = st.show_correct_between :=
  ⟨rfl, rfl, rfl, rfl, rfl, rfl, rfl, rfl⟩

/-- C9 counterexample: the claim that an unrecognized mode fails fast with
InvalidModeError is false: at the unknown mode "bogus" the resolver
returns the empty list normally instead of an error. -/
theorem c9_invalid_mode_counterexample :
    ("bogus" ∉ (["full", "lote1", "lote2", "lote3", "review"] : List String)) ∧
    get_questions_for_mode_exc [] [] "bogus" = Except.ok [] ∧
    get_questions_for_mode_exc [] [] "bogus" ≠ Except.error QuizError.invalidMode := by
  refine ⟨by decide, rfl, ?_⟩
  intro h
  exact Except.noConfusion h

/-- C9 (amended): for every mode value outside the enumerated set the
resolver silently returns the empty question list; no error is raised. -/
theorem c9_invalid_mode_amended (bank : List Question) (ans : Answers) (m : String)
    (hm : m ∉ (["full", "lote1", "lote2", "lote3", "review"] : List String)) :
    get_questions_for_mode_exc bank ans m = Except.ok [] := by
  simp only [List.mem_cons, List.not_mem_nil, or_false, not_or] at hm
  obtain ⟨h1, h2, h3, h4, h5⟩ := hm
  unfold get_questions_for_mode_exc get_questions_for_mode
  rw [if_neg h1, if_neg (by tauto : ¬(m = "lote1" ∨ m = "lote2" ∨ m = "lote3")),
    if_neg h5]

/-- Witness for C9 (amended) at the unknown mode "bogus". -/
theorem c9_invalid_mode_amended_witness :
    get_questions_for_mode_exc [] [] "bogus" = Except.ok [] :=
  c9_invalid_mode_amended [] [] "bogus" (by decide)

/-- C10: in every reachable session state each stored answer record has at
least one attempt, so the attempted total equals the number of stored
records and the wrong total (attempted minus correct) is never negative. -/
theorem c10_attempts_at_least_one (st : SessionState) (h : Reachable st)
    (bank : List Question) :
    (∀ p ∈ st.answers, 1 ≤ p.2.attempts) ∧
    (totals bank st.answers).attempted = st.answers.length ∧
    0 ≤ (totals bank st.answers).wrong := by
  have ha := reachable_attemptsInv h
  have e1 : (totals bank st.answers).attempted =
      st.answers.countP (fun p => decide (1 ≤ p.2.attempts)) := rfl
  have e2 : (totals bank st.answers).wrong =
      (st.answers.countP (fun p => decide (1 ≤ p.2.attempts)) : Int) -
        (st.answers.countP (fun p => p.2.correct) : Int) := rfl
  have hlen : st.answers.countP (fun p => decide (1 ≤ p.2.attempts)) =
      st.answers.length := by
    rw [List.countP_eq_length]
    intro p hp
    exact decide_eq_true (ha p hp)
  refine ⟨ha, ?_, ?_⟩
  · rw [e1, hlen]
  · rw [e2, hlen]
    have hc : st.answers.countP (fun p => p.2.correct) ≤ st.answers.length :=
      List.countP_le_length _
    omega

/-- Witness for C10 at the reachable state with one wrong answer. -/
theorem c10_attempts_at_least_one_witness :
    (∀ p ∈ stWrong1.answers, 1 ≤ p.2.attempts) ∧
    (totals [qLetterA] stWrong1.answers).attempted = stWrong1.answers.length ∧
    0 ≤ (totals [qLetterA] stWrong1.answers).wrong :=
  c10_attempts_at_least_one stWrong1
    (Reachable.step Reachable.init (Step.submit init_state qLetterA "B")) [qLetterA]

end UGM
